import Mathlib

/-!
Shallow embedding of the `open-software-analyzer` repository
(`src/data_fetcher.py`, `src/fetch_axios_api.py`, `src/analyzer.py`)
and proofs about the claims of its design specification.

Modelling conventions:
* A naive (timezone-free) datetime is an `Int`: the number of seconds it
  displays since the epoch.  A timezone-aware datetime is an `AwareDT`:
  the displayed wall-clock seconds together with its UTC offset.
* Python numbers are `Nat`/`Int`; true division (`/`) is modelled by
  `pydiv` over `ℚ`, which raises `PyError.zeroDivision` on a zero
  denominator exactly as Python's `int` division does.
* A pandas `DataFrame` of commits is a `List CommitRecord`; column
  aggregation (`.sum()`, `len`, `value_counts`, filtering) is modelled by
  the corresponding list operations.
* A Python exception that is not caught is an `Except.error`; a caught
  per-item exception that leads to `continue` is an `Option.none` that
  `filterMap` drops.
-/

/-- Python runtime errors relevant to the embedded code. -/
inductive PyError where
  | zeroDivision : PyError
  | gitStats : PyError
deriving DecidableEq, Repr

/-- A timezone-aware datetime: the wall-clock seconds it displays
(`localSec`, seconds since the epoch as shown on the local clock) and the
attached UTC offset in seconds.  The instant it denotes is
`localSec - offsetSec`. -/
structure AwareDT where
  localSec : Int
  offsetSec : Int
deriving DecidableEq, Repr

/-- `datetime.astimezone(pytz.UTC)`: same instant, offset zero. -/
def astimezoneUTC (d : AwareDT) : AwareDT :=
  { localSec := d.localSec - d.offsetSec, offsetSec := 0 }

/-- `datetime.replace(tzinfo=None)`: keep the displayed wall clock, drop
the offset, producing a naive datetime. -/
def replaceTzNone (d : AwareDT) : Int :=
  d.localSec

/-- The UTC instant an aware datetime denotes (spec side: "the originally
attached offset time converted to UTC"). -/
def utcInstant (d : AwareDT) : Int :=
  d.localSec - d.offsetSec

/-- Python `str.strip()`: drop leading and trailing whitespace.  Defined
over the character list so that it evaluates inside the kernel. -/
def pystrip (s : String) : String :=
  ⟨((s.data.dropWhile Char.isWhitespace).reverse.dropWhile Char.isWhitespace).reverse⟩

/-- One normalized commit record: the row layout produced by
`RepoDataFetcher.get_commit_history` / `fetch_commits_from_github_api`. -/
structure CommitRecord where
  sha : String
  author_name : String
  author_email : String
  committer_name : String
  committer_email : String
  datetime : Int
  message : String
  insertions : Nat
  deletions : Nat
  lines_changed : Nat
  files_changed : Nat
  parents : Nat
deriving DecidableEq, Repr

/-- Python true division on values cast to `ℚ`: raises `ZeroDivisionError`
on a zero denominator, as `int / int` does in Python. -/
def pydiv (a b : ℚ) : Except PyError ℚ :=
  if b = 0 then .error .zeroDivision else .ok (a / b)

/-- The dictionary returned by `RepoAnalyzer.analyze_file_changes`. -/
structure FileChangeSummary where
  total_commits : Nat
  total_files_changed : Nat
  total_additions : Nat
  total_deletions : Nat
  avg_files_per_commit : ℚ
  avg_additions_per_commit : ℚ
  avg_deletions_per_commit : ℚ
deriving DecidableEq, Repr

/-- `RepoAnalyzer.analyze_file_changes` (analyzer.py:113-133): sums the
`insertions`, `deletions` and `files_changed` columns and divides each sum
by `len(self.commit_df)` with no emptiness guard. -/
def analyze_file_changes (commit_df : List CommitRecord) : Except PyError FileChangeSummary := do
  let total_additions : Nat := (commit_df.map (·.insertions)).sum
  let total_deletions : Nat := (commit_df.map (·.deletions)).sum
  let total_files_changed : Nat := (commit_df.map (·.files_changed)).sum
  let avg_files ← pydiv (total_files_changed : ℚ) (commit_df.length : ℚ)
  let avg_additions ← pydiv (total_additions : ℚ) (commit_df.length : ℚ)
  let avg_deletions ← pydiv (total_deletions : ℚ) (commit_df.length : ℚ)
  pure
    { total_commits := commit_df.length
      total_files_changed := total_files_changed
      total_additions := total_additions
      total_deletions := total_deletions
      avg_files_per_commit := avg_files
      avg_additions_per_commit := avg_additions
      avg_deletions_per_commit := avg_deletions }

/-- The dictionary returned by `RepoAnalyzer.get_developer_productivity`. -/
structure DevProductivity where
  developer : String
  commit_count : Nat
  total_files_changed : Nat
  total_additions : Nat
  total_deletions : Nat
  avg_files_per_commit : ℚ
  avg_additions_per_commit : ℚ
  avg_deletions_per_commit : ℚ
deriving DecidableEq, Repr

/-- `RepoAnalyzer.get_developer_productivity` (analyzer.py:135-163):
filters the frame to rows whose `author_name` equals `developer_name`,
returns `None` when the filtered frame is empty, and otherwise computes
sums and per-commit averages over the filtered rows. -/
def get_developer_productivity (commit_df : List CommitRecord) (developer_name : String) :
    Except PyError (Option DevProductivity) := do
  let dev_commits := commit_df.filter (fun c => c.author_name = developer_name)
  if dev_commits.length = 0 then
    pure none
  else
    let total_additions : Nat := (dev_commits.map (·.insertions)).sum
    let total_deletions : Nat := (dev_commits.map (·.deletions)).sum
    let total_files_changed : Nat := (dev_commits.map (·.files_changed)).sum
    let avg_files ← pydiv (total_files_changed : ℚ) (dev_commits.length : ℚ)
    let avg_additions ← pydiv (total_additions : ℚ) (dev_commits.length : ℚ)
    let avg_deletions ← pydiv (total_deletions : ℚ) (dev_commits.length : ℚ)
    pure (some
      { developer := developer_name
        commit_count := dev_commits.length
        total_files_changed := total_files_changed
        total_additions := total_additions
        total_deletions := total_deletions
        avg_files_per_commit := avg_files
        avg_additions_per_commit := avg_additions
        avg_deletions_per_commit := avg_deletions })

/-- C1: on the empty collection `analyze_file_changes` performs
`sum / len(df)` with `len(df) = 0` and the division raises an unhandled
`ZeroDivisionError` (NaN under numpy float dtypes); there is no typed
`EmptyCollection` failure and averages are not defined as 0. -/
theorem analyze_file_changes_empty_faults :
    analyze_file_changes [] = .error .zeroDivision := by
  simp only [analyze_file_changes, pydiv]
  rfl

/-- C4: for every non-empty collection, `analyze_file_changes` succeeds and
returns the commit count, the three column sums, and each average exactly
equal to the corresponding sum divided by the commit count. -/
theorem analyze_file_changes_nonempty_correct (commit_df : List CommitRecord)
    (h : commit_df ≠ []) :
    analyze_file_changes commit_df = .ok
      { total_commits := commit_df.length
        total_files_changed := (commit_df.map (·.files_changed)).sum
        total_additions := (commit_df.map (·.insertions)).sum
        total_deletions := (commit_df.map (·.deletions)).sum
        avg_files_per_commit :=
          ((commit_df.map (·.files_changed)).sum : ℚ) / (commit_df.length : ℚ)
        avg_additions_per_commit :=
          ((commit_df.map (·.insertions)).sum : ℚ) / (commit_df.length : ℚ)
        avg_deletions_per_commit :=
          ((commit_df.map (·.deletions)).sum : ℚ) / (commit_df.length : ℚ) } := by
  have hlen : (commit_df.length : ℚ) ≠ 0 := by
    exact_mod_cast Nat.cast_ne_zero.mpr (List.length_pos.mpr h).ne'
  simp [analyze_file_changes, pydiv, hlen, bind, Except.bind, Function.comp_def]
  rfl

/-- Sample record used by concrete witnesses. -/
def sampleRecord : CommitRecord :=
  { sha := "abc123"
    author_name := "Alice"
    author_email := "alice@example.com"
    committer_name := "Alice"
    committer_email := "alice@example.com"
    datetime := 32400
    message := "Fix bug in login"
    insertions := 10
    deletions := 5
    lines_changed := 15
    files_changed := 2
    parents := 1 }

/-- Witness for C4: the theorem applied to a concrete one-commit
collection, with the summary evaluated. -/
theorem analyze_file_changes_nonempty_correct_witness :
    analyze_file_changes [sampleRecord] = .ok
      { total_commits := 1
        total_files_changed := 2
        total_additions := 10
        total_deletions := 5
        avg_files_per_commit := 2
        avg_additions_per_commit := 10
        avg_deletions_per_commit := 5 } := by
  have h := analyze_file_changes_nonempty_correct [sampleRecord] (by decide)
  rw [h]
  norm_num [sampleRecord]

/-- C9: when no commit's `author_name` matches, `get_developer_productivity`
returns the explicit not-found value `None` and raises no error, in
particular no division error on the empty filtered subset. -/
theorem get_developer_productivity_not_found (commit_df : List CommitRecord)
    (developer_name : String) (h : ∀ c ∈ commit_df, c.author_name ≠ developer_name) :
    get_developer_productivity commit_df developer_name = .ok none := by
  have hfil : commit_df.filter (fun c => c.author_name = developer_name) = [] := by
    apply List.filter_eq_nil_iff.mpr
    intro c hc
    simpa using h c hc
  simp only [get_developer_productivity, hfil, List.length_nil, if_pos rfl]
  rfl

/-- Witness for C9: the theorem applied to a concrete collection and an
author name that matches no record. -/
theorem get_developer_productivity_not_found_witness :
    get_developer_productivity [sampleRecord] "NoSuchUser" = .ok none :=
  get_developer_productivity_not_found [sampleRecord] "NoSuchUser" (by decide)

/-- Helper for `dedupFirst`: keeps the elements not in `seen`, first
occurrences only, in traversal order.  This models the insertion order of
the hash tables behind pandas `value_counts`. -/
def dedupFirstAux {α : Type} [DecidableEq α] (seen : List α) : List α → List α
  | [] => []
  | a :: rest =>
    if a ∈ seen then dedupFirstAux seen rest else a :: dedupFirstAux (a :: seen) rest

/-- The distinct values of a list in order of first occurrence. -/
def dedupFirst {α : Type} [DecidableEq α] (l : List α) : List α :=
  dedupFirstAux [] l

theorem mem_dedupFirstAux {α : Type} [DecidableEq α] (x : α) :
    ∀ (l seen : List α), x ∈ dedupFirstAux seen l ↔ (x ∈ l ∧ x ∉ seen)
  | [], seen => by simp [dedupFirstAux]
  | a :: rest, seen => by
    by_cases ha : a ∈ seen
    · rw [dedupFirstAux, if_pos ha, mem_dedupFirstAux x rest seen]
      constructor
      · exact fun ⟨h1, h2⟩ => ⟨List.mem_cons_of_mem a h1, h2⟩
      · rintro ⟨h1, h2⟩
        rcases List.mem_cons.mp h1 with rfl | h1
        · exact absurd ha h2
        · exact ⟨h1, h2⟩
    · rw [dedupFirstAux, if_neg ha]
      simp only [List.mem_cons, mem_dedupFirstAux x rest (a :: seen), List.mem_cons]
      constructor
      · rintro (rfl | ⟨h1, h2⟩)
        · exact ⟨Or.inl rfl, ha⟩
        · exact ⟨Or.inr h1, fun hx => h2 (Or.inr hx)⟩
      · rintro ⟨rfl | h1, h2⟩
        · exact Or.inl rfl
        · by_cases hxa : x = a
          · exact Or.inl hxa
          · exact Or.inr ⟨h1, fun hx => (hx.elim hxa h2)⟩

theorem mem_dedupFirst {α : Type} [DecidableEq α] (l : List α) (x : α) :
    x ∈ dedupFirst l ↔ x ∈ l := by
  rw [dedupFirst, mem_dedupFirstAux]
  simp

theorem nodup_dedupFirstAux {α : Type} [DecidableEq α] :
    ∀ (l seen : List α), (dedupFirstAux seen l).Nodup
  | [], seen => by simp [dedupFirstAux]
  | a :: rest, seen => by
    by_cases ha : a ∈ seen
    · rw [dedupFirstAux, if_pos ha]
      exact nodup_dedupFirstAux rest seen
    · rw [dedupFirstAux, if_neg ha]
      refine List.nodup_cons.mpr ⟨?_, nodup_dedupFirstAux rest (a :: seen)⟩
      intro hmem
      exact ((mem_dedupFirstAux a rest (a :: seen)).mp hmem).2 (List.mem_cons_self a seen)

theorem nodup_dedupFirst {α : Type} [DecidableEq α] (l : List α) : (dedupFirst l).Nodup :=
  nodup_dedupFirstAux l []

theorem pairwise_indexOf_dedupFirstAux {α : Type} [DecidableEq α] :
    ∀ (l seen : List α),
      (dedupFirstAux seen l).Pairwise (fun x y => l.indexOf x < l.indexOf y)
  | [], seen => by simp [dedupFirstAux]
  | a :: rest, seen => by
    by_cases ha : a ∈ seen
    · rw [dedupFirstAux, if_pos ha]
      refine (pairwise_indexOf_dedupFirstAux rest seen).imp_of_mem ?_
      intro x y hx hy hlt
      have hxa : x ≠ a := fun h => ((mem_dedupFirstAux x rest seen).mp hx).2 (h ▸ ha)
      have hya : y ≠ a := fun h => ((mem_dedupFirstAux y rest seen).mp hy).2 (h ▸ ha)
      rw [List.indexOf_cons_ne rest hxa.symm, List.indexOf_cons_ne rest hya.symm]
      · exact Nat.succ_lt_succ hlt
    · rw [dedupFirstAux, if_neg ha]
      refine List.pairwise_cons.mpr ⟨?_, ?_⟩
      · intro b hb
        have hba : b ≠ a :=
          fun h => ((mem_dedupFirstAux b rest (a :: seen)).mp hb).2 (h ▸ List.mem_cons_self a seen)
        rw [List.indexOf_cons_self, List.indexOf_cons_ne rest hba.symm]
        exact Nat.succ_pos _
      · refine (pairwise_indexOf_dedupFirstAux rest (a :: seen)).imp_of_mem ?_
        intro x y hx hy hlt
        have hxa : x ≠ a := fun h =>
          ((mem_dedupFirstAux x rest (a :: seen)).mp hx).2 (h ▸ List.mem_cons_self a seen)
        have hya : y ≠ a := fun h =>
          ((mem_dedupFirstAux y rest (a :: seen)).mp hy).2 (h ▸ List.mem_cons_self a seen)
        rw [List.indexOf_cons_ne rest hxa.symm, List.indexOf_cons_ne rest hya.symm]
        exact Nat.succ_lt_succ hlt

theorem pairwise_indexOf_dedupFirst {α : Type} [DecidableEq α] (l : List α) :
    (dedupFirst l).Pairwise (fun x y => l.indexOf x < l.indexOf y) :=
  pairwise_indexOf_dedupFirstAux l []

/-- The `author_name` column of a commit frame
(`self.commit_df['author_name']`). -/
def author_col (commit_df : List CommitRecord) : List String :=
  commit_df.map (·.author_name)

/-- Ordering used by pandas `value_counts` on the first-encounter-ordered
distinct authors: stable descending sort by count, i.e. larger count
first, ties resolved by the first occurrence position in the original
author column. -/
def authorLE (authors : List String) (p q : String × Nat) : Prop :=
  q.2 < p.2 ∨ (p.2 = q.2 ∧ authors.indexOf p.1 ≤ authors.indexOf q.1)

instance (authors : List String) : DecidableRel (authorLE authors) := fun p q => by
  unfold authorLE
  exact inferInstance

instance (authors : List String) : IsTotal (String × Nat) (authorLE authors) := by
  constructor
  intro p q
  rcases Nat.lt_trichotomy p.2 q.2 with h | h | h
  · exact Or.inr (Or.inl h)
  · rcases Nat.le_total (authors.indexOf p.1) (authors.indexOf q.1) with h2 | h2
    · exact Or.inl (Or.inr ⟨h, h2⟩)
    · exact Or.inr (Or.inr ⟨h.symm, h2⟩)
  · exact Or.inl (Or.inl h)

instance (authors : List String) : IsTrans (String × Nat) (authorLE authors) := by
  constructor
  rintro p q r (h1 | ⟨h1, h1i⟩) (h2 | ⟨h2, h2i⟩)
  · exact Or.inl (h2.trans h1)
  · exact Or.inl (h2 ▸ h1)
  · exact Or.inl (h1 ▸ h2)
  · exact Or.inr ⟨h1.trans h2, h1i.trans h2i⟩

/-- `Series.value_counts()` on the author column: one `(value, count)` row
per distinct value, sorted by count descending, ties in order of first
appearance in the column. -/
def value_counts (authors : List String) : List (String × Nat) :=
  List.insertionSort (authorLE authors)
    ((dedupFirst authors).map (fun a => (a, authors.count a)))

/-- `RepoAnalyzer.analyze_developer_activity` (analyzer.py:40-52):
`value_counts` on the `author_name` column followed by `head(top_n)`. -/
def analyze_developer_activity (commit_df : List CommitRecord) (top_n : Nat) :
    List (String × Nat) :=
  (value_counts (author_col commit_df)).take top_n

theorem value_counts_perm (authors : List String) :
    (value_counts authors).Perm
      ((dedupFirst authors).map (fun a => (a, authors.count a))) :=
  List.perm_insertionSort _ _

theorem value_counts_sorted (authors : List String) :
    (value_counts authors).Pairwise (authorLE authors) :=
  List.sorted_insertionSort _ _

theorem mem_value_counts (authors : List String) (u : String × Nat) :
    u ∈ value_counts authors ↔ (u.1 ∈ authors ∧ u.2 = authors.count u.1) := by
  rw [(value_counts_perm authors).mem_iff]
  constructor
  · intro hu
    rcases List.mem_map.mp hu with ⟨a, ha, rfl⟩
    exact ⟨(mem_dedupFirst authors a).mp ha, rfl⟩
  · rintro ⟨h1, h2⟩
    rcases u with ⟨a, c⟩
    simp only at h1 h2
    subst h2
    exact List.mem_map.mpr ⟨a, (mem_dedupFirst authors a).mpr h1, rfl⟩

theorem value_counts_pairwise_ne (authors : List String) :
    (value_counts authors).Pairwise (fun u v => u.1 ≠ v.1) := by
  have hnd : ((dedupFirst authors).map (fun a => (a, authors.count a))).Pairwise
      (fun u v => u.1 ≠ v.1) := by
    rw [List.pairwise_map]
    exact nodup_dedupFirst authors
  exact ((value_counts_perm authors).pairwise_iff
    (fun {u v : String × Nat} (h : u.1 ≠ v.1) => h.symm)).mpr hnd

/-- Second sample record (different author, same 9 o'clock hour). -/
def sampleRecordB : CommitRecord :=
  { sha := "def456"
    author_name := "Bob"
    author_email := "bob@example.com"
    committer_name := "Bob"
    committer_email := "bob@example.com"
    datetime := 32460
    message := "Add new feature"
    insertions := 20
    deletions := 0
    lines_changed := 20
    files_changed := 1
    parents := 1 }

/-- Third sample record (first author again, 14 o'clock hour). -/
def sampleRecordC : CommitRecord :=
  { sha := "ghi789"
    author_name := "Alice"
    author_email := "alice@example.com"
    committer_name := "Alice"
    committer_email := "alice@example.com"
    datetime := 50400
    message := "Update documentation"
    insertions := 5
    deletions := 2
    lines_changed := 7
    files_changed := 3
    parents := 1 }

/-- A concrete three-commit collection: authors Alice, Bob, Alice at
commit hours 9, 9 and 14. -/
def sampleDF : List CommitRecord :=
  [sampleRecord, sampleRecordB, sampleRecordC]

/-- C5: for every collection and limit, `analyze_developer_activity`
returns at most `top_n` rows and at most one row per distinct author;
each row pairs an author with the exact number of commits whose
`author_name` equals it; rows are sorted non-increasing by count; and any
two rows with equal counts are ordered by the author's first occurrence
in the collection. -/
theorem analyze_developer_activity_spec (commit_df : List CommitRecord) (top_n : Nat) :
    (analyze_developer_activity commit_df top_n).length ≤ top_n ∧
    (analyze_developer_activity commit_df top_n).length ≤
      (author_col commit_df).toFinset.card ∧
    (∀ u ∈ analyze_developer_activity commit_df top_n,
      u.2 = (author_col commit_df).count u.1 ∧ u.1 ∈ author_col commit_df) ∧
    (analyze_developer_activity commit_df top_n).Pairwise (fun u v => v.2 ≤ u.2) ∧
    (analyze_developer_activity commit_df top_n).Pairwise (fun u v => u.2 = v.2 →
      (author_col commit_df).indexOf u.1 < (author_col commit_df).indexOf v.1) := by
  have hsub : List.Sublist (analyze_developer_activity commit_df top_n)
      (value_counts (author_col commit_df)) :=
    List.take_sublist top_n _
  refine ⟨?_, ?_, ?_, ?_, ?_⟩
  · simp only [analyze_developer_activity, List.length_take]
    exact Nat.min_le_left _ _
  · simp only [analyze_developer_activity, List.length_take]
    refine le_trans (Nat.min_le_right _ _) ?_
    rw [(value_counts_perm (author_col commit_df)).length_eq, List.length_map]
    have hfs : (dedupFirst (author_col commit_df)).toFinset = (author_col commit_df).toFinset := by
      ext x
      simp [List.mem_toFinset, mem_dedupFirst]
    rw [← List.toFinset_card_of_nodup (nodup_dedupFirst (author_col commit_df)), hfs]
  · intro u hu
    have h := (mem_value_counts (author_col commit_df) u).mp (hsub.subset hu)
    exact ⟨h.2, h.1⟩
  · refine ((value_counts_sorted (author_col commit_df)).sublist hsub).imp ?_
    rintro u v (h | ⟨h, _⟩)
    · exact h.le
    · exact le_of_eq h.symm
  · have hfull : (value_counts (author_col commit_df)).Pairwise (fun u v => u.2 = v.2 →
        (author_col commit_df).indexOf u.1 < (author_col commit_df).indexOf v.1) := by
      refine ((value_counts_sorted (author_col commit_df)).and
        (value_counts_pairwise_ne (author_col commit_df))).imp_of_mem ?_
      intro u v hu hv h heq
      rcases h with ⟨hlt | ⟨_, hidx⟩, hne⟩
      · rw [heq] at hlt
        exact absurd hlt (lt_irrefl _)
      · refine lt_of_le_of_ne hidx ?_
        intro habs
        have hu1 : u.1 ∈ author_col commit_df :=
          ((mem_value_counts (author_col commit_df) u).mp hu).1
        have hv1 : v.1 ∈ author_col commit_df :=
          ((mem_value_counts (author_col commit_df) v).mp hv).1
        exact hne ((List.indexOf_inj hu1 hv1).mp habs)
    exact hfull.sublist hsub

/-- Witness for C5: the per-row fact of the theorem applied to the
concrete collection `sampleDF` and the row for its top contributor. -/
theorem analyze_developer_activity_spec_witness :
    (2 : Nat) = (author_col sampleDF).count "Alice" ∧ "Alice" ∈ author_col sampleDF := by
  have h := (analyze_developer_activity_spec sampleDF 10).2.2.1 ("Alice", 2) (by decide)
  simpa using h

/-- Python `datetime.hour` of a naive datetime held as seconds since the
epoch: floor modulo a day, floor divided by an hour. -/
def pyHour (t : Int) : Int :=
  (t.emod 86400).ediv 3600

/-- The `.dt.hour` column of the frame
(`self.commit_df['datetime'].dt.hour`). -/
def hour_col (commit_df : List CommitRecord) : List Int :=
  commit_df.map (fun c => pyHour c.datetime)

/-- `sort_index()` ordering for the hour distribution: ascending bucket
key. -/
def hourKeyLE (p q : Int × Nat) : Prop :=
  p.1 ≤ q.1

instance : DecidableRel hourKeyLE := fun p q => by
  unfold hourKeyLE
  exact inferInstance

instance : IsTotal (Int × Nat) hourKeyLE :=
  ⟨fun p q => Int.le_total p.1 q.1⟩

instance : IsTrans (Int × Nat) hourKeyLE :=
  ⟨fun _ _ _ h h2 => le_trans h h2⟩

/-- `RepoAnalyzer.analyze_commit_time_distribution(time_unit='hour')`
(analyzer.py:64-66): `value_counts` of the hour column followed by
`sort_index()`, i.e. one `(hour, count)` row per observed hour value,
sorted ascending by hour. -/
def analyze_commit_time_distribution_hour (commit_df : List CommitRecord) : List (Int × Nat) :=
  List.insertionSort hourKeyLE
    ((dedupFirst (hour_col commit_df)).map (fun h => (h, (hour_col commit_df).count h)))

theorem hour_dist_perm (commit_df : List CommitRecord) :
    (analyze_commit_time_distribution_hour commit_df).Perm
      ((dedupFirst (hour_col commit_df)).map
        (fun h => (h, (hour_col commit_df).count h))) :=
  List.perm_insertionSort _ _

theorem mem_hour_dist (commit_df : List CommitRecord) (p : Int × Nat) :
    p ∈ analyze_commit_time_distribution_hour commit_df ↔
      (p.1 ∈ hour_col commit_df ∧ p.2 = (hour_col commit_df).count p.1) := by
  rw [(hour_dist_perm commit_df).mem_iff]
  constructor
  · intro hp
    rcases List.mem_map.mp hp with ⟨h, hh, rfl⟩
    exact ⟨(mem_dedupFirst _ h).mp hh, rfl⟩
  · rintro ⟨h1, h2⟩
    rcases p with ⟨h, c⟩
    simp only at h1 h2
    subst h2
    exact List.mem_map.mpr ⟨h, (mem_dedupFirst _ h).mpr h1, rfl⟩

/-- C6: the hour distribution has exactly one bucket per hour value that
occurs in the collection, carrying the exact commit count at that hour;
buckets are strictly ascending by hour (so zero-count hours are absent);
and on the concrete collection with commit hours 9, 9, 14 it returns
[(9, 2), (14, 1)]. -/
theorem analyze_commit_time_distribution_hour_spec (commit_df : List CommitRecord) :
    (∀ p ∈ analyze_commit_time_distribution_hour commit_df,
      p.2 = (hour_col commit_df).count p.1 ∧ p.1 ∈ hour_col commit_df) ∧
    (∀ h ∈ hour_col commit_df,
      (h, (hour_col commit_df).count h) ∈ analyze_commit_time_distribution_hour commit_df) ∧
    (analyze_commit_time_distribution_hour commit_df).Pairwise (fun p q => p.1 < q.1) ∧
    analyze_commit_time_distribution_hour sampleDF = [(9, 2), (14, 1)] := by
  refine ⟨?_, ?_, ?_, by decide⟩
  · intro p hp
    have h := (mem_hour_dist commit_df p).mp hp
    exact ⟨h.2, h.1⟩
  · intro h hh
    exact (mem_hour_dist commit_df (h, (hour_col commit_df).count h)).mpr ⟨hh, rfl⟩
  · have hle : (analyze_commit_time_distribution_hour commit_df).Pairwise hourKeyLE :=
      List.sorted_insertionSort _ _
    have hne : (analyze_commit_time_distribution_hour commit_df).Pairwise
        (fun p q => p.1 ≠ q.1) := by
      have hnd : ((dedupFirst (hour_col commit_df)).map
          (fun h => (h, (hour_col commit_df).count h))).Pairwise
          (fun p q => p.1 ≠ q.1) := by
        rw [List.pairwise_map]
        exact nodup_dedupFirst _
      exact ((hour_dist_perm commit_df).pairwise_iff
        (fun {p q : Int × Nat} (h : p.1 ≠ q.1) => h.symm)).mpr hnd
    refine (hle.and hne).imp ?_
    rintro p q ⟨h1, h2⟩
    exact lt_of_le_of_ne h1 h2

/-- Witness for C6: the bucket-per-observed-hour fact of the theorem
applied to the concrete collection `sampleDF` at hour 9, whose count
evaluates to 2. -/
theorem analyze_commit_time_distribution_hour_spec_witness :
    ((9 : Int), (hour_col sampleDF).count 9) ∈
        analyze_commit_time_distribution_hour sampleDF ∧
      (hour_col sampleDF).count 9 = 2 :=
  ⟨(analyze_commit_time_distribution_hour_spec sampleDF).2.1 9 (by decide), by decide⟩

deriving instance DecidableEq for Except

/-- The `commit.stats` data of a GitPython commit: the `total` dictionary
(whose keys may be absent, read with `.get(key, 0)`) and the size of the
`files` dictionary. -/
structure GitStats where
  insertions : Option Nat
  deletions : Option Nat
  lines : Option Nat
  filesCount : Nat
deriving DecidableEq, Repr

/-- One commit as yielded by `repo.iter_commits()` (GitPython iterates the
history newest first from the current reference).  `stats` models the
`commit.stats` property, whose computation can raise a git error for an
individual commit. -/
structure RawGitCommit where
  hexsha : String
  authorName : String
  authorEmail : String
  committerName : String
  committerEmail : String
  committedDatetime : AwareDT
  message : String
  stats : Except PyError GitStats
  parentsCount : Nat
deriving DecidableEq, Repr

/-- The per-commit body of the `for commit in repo.iter_commits()` loop in
`RepoDataFetcher.get_commit_history` (data_fetcher.py:87-105): read
`commit.stats.total` (propagating any exception), convert the committed
datetime to UTC and strip the offset, and build the row dict with
`.get(key, 0)` defaults. -/
def mkGitRecord (c : RawGitCommit) : Except PyError CommitRecord := do
  let stats ← c.stats
  let utc_datetime := astimezoneUTC c.committedDatetime
  let datetime_without_tz := replaceTzNone utc_datetime
  pure
    { sha := c.hexsha
      author_name := c.authorName
      author_email := c.authorEmail
      committer_name := c.committerName
      committer_email := c.committerEmail
      datetime := datetime_without_tz
      message := pystrip c.message
      insertions := stats.insertions.getD 0
      deletions := stats.deletions.getD 0
      lines_changed := stats.lines.getD 0
      files_changed := stats.filesCount
      parents := c.parentsCount }

/-- Python truthiness of `if limit and count >= limit` (data_fetcher.py:84):
`None` and `0` are both falsy, so the loop only breaks for a nonzero limit
already reached. -/
def limitHit (limit : Option Nat) (count : Nat) : Bool :=
  match limit with
  | none => false
  | some n => decide (n ≠ 0) && decide (count ≥ n)

/-- The commit loop of `RepoDataFetcher.get_commit_history`
(data_fetcher.py:83-108), carrying the running `count`. -/
def historyGo (limit : Option Nat) : List RawGitCommit → Nat → Except PyError (List CommitRecord)
  | [], _ => .ok []
  | c :: rest, count =>
    if limitHit limit count then .ok []
    else do
      let r ← mkGitRecord c
      let rs ← historyGo limit rest (count + 1)
      pure (r :: rs)

/-- `RepoDataFetcher.get_commit_history` (data_fetcher.py:68-110). -/
def get_commit_history (repo : List RawGitCommit) (limit : Option Nat) :
    Except PyError (List CommitRecord) :=
  historyGo limit repo 0

/-- The `stats` object of a GitHub API commit payload, read with
`.get('stats', {}).get(key, 0)`. -/
structure ApiStats where
  additions : Option Nat
  deletions : Option Nat
  total : Option Nat
deriving DecidableEq, Repr

/-- One element of a GitHub API commit-list page.  `none` in a required
field models an absent JSON key (whose subscript access raises `KeyError`
inside the per-commit `try` block); `committerDate` holds the instant the
`%Y-%m-%dT%H:%M:%SZ` date string denotes, `none` when the key is missing
or the string does not parse. -/
structure ApiCommit where
  sha : String
  authorName : Option String
  authorEmail : Option String
  committerName : Option String
  committerEmail : Option String
  committerDate : Option Int
  message : Option String
  stats : Option ApiStats
  files : Option (List String)
  parents : Option (List String)
deriving DecidableEq, Repr

/-- The per-commit `try` body of `fetch_commits_from_github_api`
(fetch_axios_api.py:40-64): `none` when any required access raises (the
`except` branch then drops the commit via `continue`). -/
def processApiCommit (c : ApiCommit) : Option CommitRecord := do
  let commit_datetime ← c.committerDate
  let utc_datetime : AwareDT := { localSec := commit_datetime, offsetSec := 0 }
  let datetime_without_tz := replaceTzNone utc_datetime
  let author_name ← c.authorName
  let author_email ← c.authorEmail
  let committer_name ← c.committerName
  let committer_email ← c.committerEmail
  let message ← c.message
  pure
    { sha := c.sha
      author_name := author_name
      author_email := author_email
      committer_name := committer_name
      committer_email := committer_email
      datetime := datetime_without_tz
      message := pystrip message
      insertions := (c.stats.bind (fun s => s.additions)).getD 0
      deletions := (c.stats.bind (fun s => s.deletions)).getD 0
      lines_changed := (c.stats.bind (fun s => s.total)).getD 0
      files_changed := (c.files.getD []).length
      parents := (c.parents.getD []).length }

/-- `fetch_commits_from_github_api` (fetch_axios_api.py:39-67) restricted
to the commits of one fetched page: each commit is processed inside a
`try`, and a failing commit is skipped with `continue`. -/
def fetch_commits_from_github_api (page : List ApiCommit) : List CommitRecord :=
  page.filterMap processApiCommit

/-- The default NA sentinels of `pandas.read_csv`: a cell holding one of
these strings is loaded as `NaN`, not as the string itself. -/
def default_na_values : List String :=
  ["", "#N/A", "#N/A N/A", "#NA", "-1.#IND", "-1.#QNAN", "-NaN", "-nan",
   "1.#IND", "1.#QNAN", "<NA>", "N/A", "NA", "NULL", "NaN", "None", "n/a", "nan", "null"]

/-- One row of the CSV file written by `RepoDataFetcher.save_commit_data`
(data_fetcher.py:112-128, `commit_df.to_csv(filename, index=False)`).
String cells hold the written text (csv quoting is the csv library's
concern); numeric cells hold the decimal digits `to_csv` writes (as a
`Nat.digits` list); the `datetime` cell holds the instant that its
ISO-8601 naive text denotes, the calendar rendering being part of the
external persistence format. -/
structure CsvRow where
  sha : String
  author_name : String
  author_email : String
  committer_name : String
  committer_email : String
  datetime : Int
  message : String
  insertions : List Nat
  deletions : List Nat
  lines_changed : List Nat
  files_changed : List Nat
  parents : List Nat
deriving DecidableEq, Repr

/-- A record as produced by `RepoDataFetcher.load_commit_data`
(data_fetcher.py:130-140, `pd.read_csv(filename, parse_dates=['datetime'])`).
String columns may hold `NaN` (modelled `none`) when the written cell was
an NA sentinel; `datetime` is parsed back to an instant; numeric columns
are parsed integers. -/
structure LoadedRecord where
  sha : Option String
  author_name : Option String
  author_email : Option String
  committer_name : Option String
  committer_email : Option String
  datetime : Int
  message : Option String
  insertions : Nat
  deletions : Nat
  lines_changed : Nat
  files_changed : Nat
  parents : Nat
deriving DecidableEq, Repr

/-- `read_csv` handling of one string cell: NA sentinels (including the
empty cell) load as `NaN`. -/
def parseStrCell (s : String) : Option String :=
  if s ∈ default_na_values then none else some s

/-- Serialization of one record to its CSV row. -/
def persistRow (c : CommitRecord) : CsvRow :=
  { sha := c.sha
    author_name := c.author_name
    author_email := c.author_email
    committer_name := c.committer_name
    committer_email := c.committer_email
    datetime := c.datetime
    message := c.message
    insertions := Nat.digits 10 c.insertions
    deletions := Nat.digits 10 c.deletions
    lines_changed := Nat.digits 10 c.lines_changed
    files_changed := Nat.digits 10 c.files_changed
    parents := Nat.digits 10 c.parents }

/-- Parsing of one CSV row on reload. -/
def parseRow (r : CsvRow) : LoadedRecord :=
  { sha := parseStrCell r.sha
    author_name := parseStrCell r.author_name
    author_email := parseStrCell r.author_email
    committer_name := parseStrCell r.committer_name
    committer_email := parseStrCell r.committer_email
    datetime := r.datetime
    message := parseStrCell r.message
    insertions := Nat.ofDigits 10 r.insertions
    deletions := Nat.ofDigits 10 r.deletions
    lines_changed := Nat.ofDigits 10 r.lines_changed
    files_changed := Nat.ofDigits 10 r.files_changed
    parents := Nat.ofDigits 10 r.parents }

/-- `RepoDataFetcher.save_commit_data`: one CSV row per record, in order. -/
def save_commit_data (commit_df : List CommitRecord) : List CsvRow :=
  commit_df.map persistRow

/-- `RepoDataFetcher.load_commit_data`: parse every persisted row. -/
def load_commit_data (rows : List CsvRow) : List LoadedRecord :=
  rows.map parseRow

/-- Field-for-field correspondence between an original record and a
reloaded one: every string field survives as itself, the timestamp is the
same instant, and every numeric field is unchanged. -/
def loadedMatches (c : CommitRecord) (l : LoadedRecord) : Prop :=
  l.sha = some c.sha ∧ l.author_name = some c.author_name ∧
  l.author_email = some c.author_email ∧ l.committer_name = some c.committer_name ∧
  l.committer_email = some c.committer_email ∧ l.datetime = c.datetime ∧
  l.message = some c.message ∧ l.insertions = c.insertions ∧
  l.deletions = c.deletions ∧ l.lines_changed = c.lines_changed ∧
  l.files_changed = c.files_changed ∧ l.parents = c.parents

instance (c : CommitRecord) (l : LoadedRecord) : Decidable (loadedMatches c l) := by
  unfold loadedMatches
  exact inferInstance

/-- A record whose every string field is not an NA sentinel of
`read_csv`. -/
def hasCleanStrings (c : CommitRecord) : Prop :=
  c.sha ∉ default_na_values ∧ c.author_name ∉ default_na_values ∧
  c.author_email ∉ default_na_values ∧ c.committer_name ∉ default_na_values ∧
  c.committer_email ∉ default_na_values ∧ c.message ∉ default_na_values

instance (c : CommitRecord) : Decidable (hasCleanStrings c) := by
  unfold hasCleanStrings
  exact inferInstance

/-- Concrete stats for a sample raw commit. -/
def sampleGitStats : GitStats :=
  { insertions := some 10, deletions := some 5, lines := some 15, filesCount := 2 }

/-- Concrete raw commit whose committed datetime carries a +02:00 offset;
its normalization is `sampleRecord`. -/
def sampleRawCommit : RawGitCommit :=
  { hexsha := "abc123"
    authorName := "Alice"
    authorEmail := "alice@example.com"
    committerName := "Alice"
    committerEmail := "alice@example.com"
    committedDatetime := { localSec := 39600, offsetSec := 7200 }
    message := "Fix bug in login"
    stats := .ok sampleGitStats
    parentsCount := 1 }

theorem historyGo_none_length :
    ∀ (l : List RawGitCommit) (count : Nat) (out : List CommitRecord),
      historyGo none l count = .ok out → out.length = l.length
  | [], _, out => by
    intro h
    simp only [historyGo] at h
    cases h
    rfl
  | c :: rest, count, out => by
    intro h
    simp only [historyGo, limitHit, if_false, Bool.false_eq_true] at h
    cases hr : mkGitRecord c with
    | error e =>
      rw [hr] at h
      cases h
    | ok r =>
      rw [hr] at h
      cases hg : historyGo none rest (count + 1) with
      | error e =>
        rw [hg] at h
        cases h
      | ok rs =>
        rw [hg] at h
        cases h
        simp [historyGo_none_length rest (count + 1) rs hg]

theorem historyGo_some_eq_take (n : Nat) (hn : 0 < n) :
    ∀ (l : List RawGitCommit) (count : Nat), count ≤ n →
      historyGo (some n) l count = historyGo none (l.take (n - count)) count
  | [], count, _ => by
    simp [historyGo]
  | c :: rest, count, hc => by
    by_cases hcount : count < n
    · obtain ⟨k, hk⟩ : ∃ k, n - count = k + 1 := ⟨n - count - 1, by omega⟩
      rw [hk, List.take_succ_cons]
      simp only [historyGo]
      have hlim : limitHit (some n) count = false := by
        simp only [limitHit, Bool.and_eq_false_iff, decide_eq_false_iff_not]
        right
        omega
      rw [hlim]
      have ih := historyGo_some_eq_take n hn rest (count + 1) (by omega)
      have hk2 : n - (count + 1) = k := by omega
      rw [hk2] at ih
      simp only [limitHit, if_false, Bool.false_eq_true]
      rw [ih]
    · have hcn : count = n := le_antisymm hc (not_lt.mp hcount)
      have hz : n - count = 0 := by omega
      rw [hz, List.take_zero]
      have hlim : limitHit (some n) count = true := by
        simp only [limitHit, Bool.and_eq_true, decide_eq_true_eq]
        omega
      simp [historyGo, hlim]

/-- C8 (amended to positive limits): with a positive limit `n`,
`get_commit_history` processes exactly the first `n` commits of the
newest-first iteration (all of them when fewer exist), so a successful
result has `min n (length repo)` records, hence at most `n`; with no
limit the full history is extracted. -/
theorem get_commit_history_limit_spec (repo : List RawGitCommit) (n : Nat) (hn : 0 < n) :
    get_commit_history repo (some n) = get_commit_history (repo.take n) none ∧
    (∀ l, get_commit_history repo (some n) = .ok l → l.length = min n repo.length) ∧
    (∀ l, get_commit_history repo (some n) = .ok l → l.length ≤ n) ∧
    (∀ l, get_commit_history repo none = .ok l → l.length = repo.length) := by
  have h1 : get_commit_history repo (some n) = get_commit_history (repo.take n) none := by
    unfold get_commit_history
    have h := historyGo_some_eq_take n hn repo 0 (Nat.zero_le n)
    simpa using h
  refine ⟨h1, ?_, ?_, ?_⟩
  · intro l hl
    rw [h1] at hl
    have h := historyGo_none_length (repo.take n) 0 l hl
    simpa [List.length_take] using h
  · intro l hl
    rw [h1] at hl
    have h := historyGo_none_length (repo.take n) 0 l hl
    rw [List.length_take] at h
    omega
  · intro l hl
    exact historyGo_none_length repo 0 l hl

/-- Witness for C8 (amended): the theorem applied to a concrete
one-commit repository with limit 1. -/
theorem get_commit_history_limit_spec_witness :
    get_commit_history [sampleRawCommit] (some 1) =
        get_commit_history ([sampleRawCommit].take 1) none ∧
      ([sampleRecord] : List CommitRecord).length = min 1 [sampleRawCommit].length ∧
      ([sampleRecord] : List CommitRecord).length ≤ 1 := by
  have h := get_commit_history_limit_spec [sampleRawCommit] 1 (by decide)
  exact ⟨h.1, h.2.1 [sampleRecord] (by decide), h.2.2.1 [sampleRecord] (by decide)⟩

/-- C8 as literally stated is false at limit 0: `if limit and ...` is
falsy for `limit = 0`, so a given limit of 0 yields one record from a
one-commit repository instead of at most zero. -/
theorem get_commit_history_zero_limit_counterexample :
    get_commit_history [sampleRawCommit] (some 0) = .ok [sampleRecord] ∧
      ¬ (([sampleRecord] : List CommitRecord).length ≤ 0) :=
  ⟨by decide, by decide⟩

theorem historyGo_some_zero :
    ∀ (l : List RawGitCommit) (count : Nat),
      historyGo (some 0) l count = historyGo none l count
  | [], _ => rfl
  | c :: rest, count => by
    have h0 : limitHit (some 0) count = false := by
      simp [limitHit]
    simp only [historyGo]
    rw [h0]
    rw [if_neg (by decide : ¬ (false = true))]
    rw [historyGo_some_zero rest (count + 1)]
    rw [show limitHit none count = false from rfl]
    rw [if_neg (by decide : ¬ (false = true))]

/-- C10: a limit of 0 is falsy in `if limit and count >= limit`, so
`get_commit_history` with limit 0 behaves exactly like no limit: it
returns the full history, which is nonempty whenever the repository has
commits. -/
theorem get_commit_history_zero_is_no_limit (repo : List RawGitCommit) :
    get_commit_history repo (some 0) = get_commit_history repo none ∧
    (∀ l, get_commit_history repo (some 0) = .ok l → l.length = repo.length) ∧
    (∀ l, get_commit_history repo (some 0) = .ok l → repo ≠ [] → l ≠ []) := by
  have h1 : get_commit_history repo (some 0) = get_commit_history repo none :=
    historyGo_some_zero repo 0
  refine ⟨h1, ?_, ?_⟩
  · intro l hl
    rw [h1] at hl
    exact historyGo_none_length repo 0 l hl
  · intro l hl hrepo hnil
    rw [h1] at hl
    have h := historyGo_none_length repo 0 l hl
    rw [hnil] at h
    exact hrepo (List.eq_nil_of_length_eq_zero h.symm)

/-- Witness for C10: the theorem applied to a concrete one-commit
repository. -/
theorem get_commit_history_zero_is_no_limit_witness :
    get_commit_history [sampleRawCommit] (some 0) =
        get_commit_history [sampleRawCommit] none ∧
      ([sampleRecord] : List CommitRecord).length = [sampleRawCommit].length := by
  have h := get_commit_history_zero_is_no_limit [sampleRawCommit]
  exact ⟨h.1, h.2.1 [sampleRecord] (by decide)⟩

/-- A GitHub API commit whose payload has every required key but no
`stats`/`files`/`parents` keys (the list endpoint omits them). -/
def apiSampleCommit : ApiCommit :=
  { sha := "sha1"
    authorName := some "Alice"
    authorEmail := some "alice@example.com"
    committerName := some "Alice"
    committerEmail := some "alice@example.com"
    committerDate := some 32400
    message := some "Fix bug in login"
    stats := none
    files := none
    parents := none }

/-- The record `fetch_commits_from_github_api` builds from
`apiSampleCommit`. -/
def apiSampleRecord : CommitRecord :=
  { sha := "sha1"
    author_name := "Alice"
    author_email := "alice@example.com"
    committer_name := "Alice"
    committer_email := "alice@example.com"
    datetime := 32400
    message := "Fix bug in login"
    insertions := 0
    deletions := 0
    lines_changed := 0
    files_changed := 0
    parents := 0 }

/-- A GitHub API commit whose payload is missing the committer date key,
so its per-commit processing raises and the `except` branch skips it. -/
def apiFailingCommit : ApiCommit :=
  { sha := "sha2"
    authorName := some "Bob"
    authorEmail := some "bob@example.com"
    committerName := some "Bob"
    committerEmail := some "bob@example.com"
    committerDate := none
    message := some "Add new feature"
    stats := none
    files := none
    parents := none }

/-- A raw git commit whose `commit.stats` computation raises. -/
def failingGitCommit : RawGitCommit :=
  { hexsha := "deadbeef"
    authorName := "Carol"
    authorEmail := "carol@example.com"
    committerName := "Carol"
    committerEmail := "carol@example.com"
    committedDatetime := { localSec := 1000, offsetSec := 0 }
    message := "broken"
    stats := .error .gitStats
    parentsCount := 1 }

/-- C7: every record either extraction path produces carries as its naive
timestamp exactly the UTC instant of the commit's originally attached
offset time: the local fetcher converts the aware committed datetime to
UTC and strips the offset, and the API fetcher keeps the instant denoted
by the already-UTC date string. -/
theorem extraction_timestamp_utc_naive :
    (∀ (c : RawGitCommit) (r : CommitRecord), mkGitRecord c = .ok r →
      r.datetime = utcInstant c.committedDatetime) ∧
    (∀ (a : ApiCommit) (u : Int) (r : CommitRecord), a.committerDate = some u →
      processApiCommit a = some r →
      r.datetime = utcInstant { localSec := u, offsetSec := 0 } ∧ r.datetime = u) := by
  constructor
  · intro c r h
    cases hs : c.stats with
    | error e =>
      simp [mkGitRecord, hs, bind, Except.bind] at h
    | ok s =>
      simp only [mkGitRecord, hs, bind, Except.bind, pure, Except.pure, Except.ok.injEq] at h
      subst h
      simp [astimezoneUTC, replaceTzNone, utcInstant]
  · intro a u r hd hp
    rcases han : a.authorName with _ | an <;>
      rcases hae : a.authorEmail with _ | ae <;>
        rcases hcn : a.committerName with _ | cn <;>
          rcases hce : a.committerEmail with _ | ce <;>
            rcases hm : a.message with _ | m <;>
              simp only [processApiCommit, hd, han, hae, hcn, hce, hm, Option.bind_eq_bind,
                Option.some_bind, Option.none_bind, Option.pure_def, Option.some.injEq,
                reduceCtorEq] at hp
    subst hp
    simp [replaceTzNone, utcInstant]

/-- Witness for C7: the theorem applied to the concrete raw commit with a
+02:00 offset and to the concrete API commit. -/
theorem extraction_timestamp_utc_naive_witness :
    sampleRecord.datetime = utcInstant sampleRawCommit.committedDatetime ∧
      (apiSampleRecord.datetime = utcInstant { localSec := 32400, offsetSec := 0 } ∧
        apiSampleRecord.datetime = 32400) :=
  ⟨extraction_timestamp_utc_naive.1 sampleRawCommit sampleRecord (by decide),
   extraction_timestamp_utc_naive.2 apiSampleCommit 32400 apiSampleRecord
     (by decide) (by decide)⟩

/-- C2 as stated is false: over a page holding a good commit and a commit
whose statistics/date processing raises, the API fetcher emits only one
record and no record at all for the failing commit — the failing commit
is dropped, not emitted with zeroed fields. -/
theorem per_commit_failure_counterexample :
    fetch_commits_from_github_api [apiSampleCommit, apiFailingCommit] = [apiSampleRecord] ∧
      (fetch_commits_from_github_api [apiSampleCommit, apiFailingCommit]).length = 1 ∧
      (fetch_commits_from_github_api [apiSampleCommit, apiFailingCommit]).map (·.sha) =
        ["sha1"] :=
  ⟨by decide, by decide, by decide⟩

/-- C2 (amended): absent statistics keys are recovered per commit — the
record is emitted with its numeric fields defaulted to 0 and extraction
continues; but an exception while processing an individual API commit
drops that commit from the output (the rest are still processed), and in
the local fetcher an exception from `commit.stats` aborts the whole
extraction. -/
theorem per_commit_failure_policy :
    (∀ (sha an ae cn ce : String) (d : Int) (m : String) (fs ps : Option (List String)),
      processApiCommit
          { sha := sha, authorName := some an, authorEmail := some ae,
            committerName := some cn, committerEmail := some ce,
            committerDate := some d, message := some m, stats := none,
            files := fs, parents := ps } =
        some { sha := sha, author_name := an, author_email := ae, committer_name := cn,
               committer_email := ce, datetime := d, message := pystrip m,
               insertions := 0, deletions := 0, lines_changed := 0,
               files_changed := (fs.getD []).length, parents := (ps.getD []).length }) ∧
    (∀ (pre : List ApiCommit) (c : ApiCommit) (post : List ApiCommit),
      processApiCommit c = none →
      fetch_commits_from_github_api (pre ++ c :: post) =
        fetch_commits_from_github_api pre ++ fetch_commits_from_github_api post) ∧
    (∀ (c : RawGitCommit) (rest : List RawGitCommit) (e : PyError),
      c.stats = .error e → get_commit_history (c :: rest) none = .error e) := by
  refine ⟨?_, ?_, ?_⟩
  · intro sha an ae cn ce d m fs ps
    rfl
  · intro pre c post h
    simp [fetch_commits_from_github_api, List.filterMap_append, List.filterMap_cons, h]
  · intro c rest e h
    simp [get_commit_history, historyGo, limitHit, mkGitRecord, h, bind, Except.bind]

/-- Witness for C2 (amended): the three parts of the theorem applied to
concrete commits. -/
theorem per_commit_failure_policy_witness :
    processApiCommit apiSampleCommit =
        some { sha := "sha1", author_name := "Alice", author_email := "alice@example.com",
               committer_name := "Alice", committer_email := "alice@example.com",
               datetime := 32400, message := pystrip "Fix bug in login",
               insertions := 0, deletions := 0, lines_changed := 0,
               files_changed := ((none : Option (List String)).getD []).length,
               parents := ((none : Option (List String)).getD []).length } ∧
      fetch_commits_from_github_api ([apiSampleCommit] ++ apiFailingCommit :: []) =
        fetch_commits_from_github_api [apiSampleCommit] ++ fetch_commits_from_github_api [] ∧
      get_commit_history (failingGitCommit :: []) none = .error .gitStats :=
  ⟨per_commit_failure_policy.1 "sha1" "Alice" "alice@example.com" "Alice" "alice@example.com"
     32400 "Fix bug in login" none none,
   per_commit_failure_policy.2.1 [apiSampleCommit] apiFailingCommit [] (by decide),
   per_commit_failure_policy.2.2 failingGitCommit [] .gitStats (by decide)⟩

theorem loadedMatches_roundtrip (c : CommitRecord) (h : hasCleanStrings c) :
    loadedMatches c (parseRow (persistRow c)) := by
  obtain ⟨h1, h2, h3, h4, h5, h6⟩ := h
  unfold loadedMatches parseRow persistRow parseStrCell
  simp [h1, h2, h3, h4, h5, h6, Nat.ofDigits_digits]

/-- C3 (amended): for every collection in which no record's string field
is a `read_csv` NA sentinel (in particular none is empty), reloading the
persisted rows reproduces the records field-for-field: each string field
survives as itself, the timestamp is parsed back to the same instant, and
each numeric field round-trips through its decimal rendering. -/
theorem save_load_roundtrip_spec (commit_df : List CommitRecord)
    (h : ∀ c ∈ commit_df, hasCleanStrings c) :
    List.Forall₂ loadedMatches commit_df (load_commit_data (save_commit_data commit_df)) := by
  induction commit_df with
  | nil => exact List.Forall₂.nil
  | cons c rest ih =>
    exact List.Forall₂.cons
      (loadedMatches_roundtrip c (h c (List.mem_cons_self c rest)))
      (ih (fun x hx => h x (List.mem_cons_of_mem c hx)))

/-- Witness for C3 (amended): the theorem applied to a concrete
one-record collection with clean string fields. -/
theorem save_load_roundtrip_spec_witness :
    List.Forall₂ loadedMatches [sampleRecord]
      (load_commit_data (save_commit_data [sampleRecord])) :=
  save_load_roundtrip_spec [sampleRecord] (by decide)

/-- A record whose message is empty (e.g. a commit message that is all
whitespace before `strip()`). -/
def emptyMessageRecord : CommitRecord :=
  { sampleRecord with message := "" }

/-- C3 as stated is false: an empty message cell is a `read_csv` NA
sentinel, so reloading the persisted collection yields `NaN` (not the
empty string) in the message field and the round-trip is not
field-for-field. -/
theorem save_load_roundtrip_counterexample :
    load_commit_data (save_commit_data [emptyMessageRecord]) =
        [parseRow (persistRow emptyMessageRecord)] ∧
      (parseRow (persistRow emptyMessageRecord)).message = none ∧
      ¬ loadedMatches emptyMessageRecord (parseRow (persistRow emptyMessageRecord)) :=
  ⟨rfl, by decide, by decide⟩
